import Mathlib

/-!
Verification of the Doxygen-to-docstring translator (`doxygen_trans.py`).

The embedding below models the translator at the character-list level.
Each Python regex in the source is specialised to an equivalent explicit
scanner, faithful to Python `re` semantics for the concrete patterns the
source builds (leftmost scanning, first-alternative-wins alternation,
greedy quantifiers, optional groups that always succeed, unmatched groups
expanding to the empty string).  `\w` and `\s` are modelled over their
ASCII ranges, which cover all inputs considered here.  Scanners that
consume more than one character per step take a fuel argument; callers
pass the text length, which always suffices since every step consumes at
least one character.
-/

namespace DoxyTrans

abbrev Chars := List Char

/-- Python `\s` over ASCII: space, tab, newline, carriage return,
vertical tab, form feed. -/
def isPySpace (c : Char) : Bool :=
  c == ' ' || c == '\t' || c == '\n' || c == '\r' || c == '\x0b' || c == '\x0c'

/-- Python `\w` over ASCII: letters, digits, underscore. -/
def isPyWord (c : Char) : Bool := c.isAlphanum || c == '_'

/-- Does pattern `p` occur as a contiguous substring of `s`?  (Checks every
start position, like a regex search for a literal.) -/
def hasSub (p : Chars) : Chars → Bool
  | [] => p.isPrefixOf ([] : Chars)
  | c :: cs => p.isPrefixOf (c :: cs) || hasSub p cs

/-- Number of start positions of `s` at which `p` occurs (overlapping
occurrences counted separately). -/
def countSub (p : Chars) : Chars → Nat
  | [] => if p.isPrefixOf ([] : Chars) then 1 else 0
  | c :: cs => (if p.isPrefixOf (c :: cs) then 1 else 0) + countSub p cs

/-- Remainder of `s` after the first occurrence of `p`, if any. -/
def dropAfterFirst (p : Chars) : Chars → Option Chars
  | [] => if p.isPrefixOf ([] : Chars) then some [] else none
  | c :: cs =>
    if p.isPrefixOf (c :: cs) then some ((c :: cs).drop p.length)
    else dropAfterFirst p cs

/-- All patterns occur, in the given order, at non-overlapping advancing
positions of `s`. -/
def subsInOrder : List Chars → Chars → Bool
  | [], _ => true
  | p :: ps, s =>
    match dropAfterFirst p s with
    | some rest => subsInOrder ps rest
    | none => false

def hasSubStr (p s : String) : Bool := hasSub p.toList s.toList

def countSubStr (p s : String) : Nat := countSub p.toList s.toList

def subsInOrderStr (ps : List String) (s : String) : Bool :=
  subsInOrder (ps.map String.toList) s.toList

/-! ## Type/exception substitution table (`DoxygenTranslator.type_substitutions`)

Each dict entry's key is an alternation of literal fragments; the four
`"const … *"` string patterns end in a space quantified by `*`, so such an
alternative is a literal followed by zero-or-more literal spaces. -/

structure LitAlt where
  lit : Chars
  trailingSpaceStar : Bool
deriving Repr

inductive SubstRule where
  | lits (alts : List LitAlt) (repl : Chars)
  | scopeOp
deriving Repr

/-- Build a `LitAlt` from a source-table string, treating a trailing
`" *"` as a space quantified by `*` (as the regex engine does). -/
def toAlt (s : String) : LitAlt :=
  if [' ', '*'].isSuffixOf s.toList then
    { lit := s.toList.dropLast.dropLast, trailingSpaceStar := true }
  else { lit := s.toList, trailingSpaceStar := false }

/-- Length matched by one alternative at the head of `cs`, if it matches.
A trailing `*`-quantified space matches greedily. -/
def litAltMatchLen (a : LitAlt) (cs : Chars) : Option Nat :=
  if a.lit.isPrefixOf cs then
    if a.trailingSpaceStar then
      some (a.lit.length + ((cs.drop a.lit.length).takeWhile (· == ' ')).length)
    else some a.lit.length
  else none

/-- First alternative (in alternation order) matching at the head of `cs`. -/
def findAlt : List LitAlt → Chars → Option Nat
  | [], _ => none
  | a :: rest, cs =>
    match litAltMatchLen a cs with
    | some n => some n
    | none => findAlt rest cs

/-- `re.sub` for an alternation of literals: leftmost scan, replace, and
continue after the replacement. -/
def subLitsGo (alts : List LitAlt) (repl : Chars) : Nat → Chars → Chars
  | 0, t => t
  | _ + 1, [] => []
  | f + 1, c :: cs =>
    match findAlt alts (c :: cs) with
    | some n => repl ++ subLitsGo alts repl f ((c :: cs).drop n)
    | none => c :: subLitsGo alts repl f cs

/-! ### Scope-operator rule `([\w<>\s]*[\w>])::([\w<][\w<>\s]*)` → `\1.\2` -/

def scopeClassA (c : Char) : Bool := isPyWord c || c == '<' || c == '>' || isPySpace c

def scopeClassB (c : Char) : Bool := isPyWord c || c == '>'

def scopeClassC (c : Char) : Bool := isPyWord c || c == '<'

/-- Try the scope-operator pattern at the current position with star
length `l`: group 1 is `l` class-A characters plus one class-B character,
then `::`, then group 2 is one class-C character plus a greedy class-A
run.  Returns the replacement `\1.\2` and the rest of the text. -/
def scopeTryLen (text : Chars) (l : Nat) : Option (Chars × Chars) :=
  match text.drop l with
  | b :: c1 :: c2 :: cc :: rest =>
    if c1 = ':' ∧ c2 = ':' ∧ scopeClassB b = true ∧ scopeClassC cc = true then
      let drun := rest.takeWhile scopeClassA
      some (text.take l ++ b :: '.' :: cc :: drun, rest.drop drun.length)
    else none
  | _ => none

/-- Greedy star: try the longest class-A run first, backtracking down. -/
def scopeDesc (text : Chars) : Nat → Option (Chars × Chars)
  | 0 => scopeTryLen text 0
  | l + 1 =>
    match scopeTryLen text (l + 1) with
    | some r => some r
    | none => scopeDesc text l

def scopeTry (text : Chars) : Option (Chars × Chars) :=
  scopeDesc text ((text.takeWhile scopeClassA).length)

/-- `re.sub` for the scope-operator rule: leftmost scan. -/
def scopeSubGo : Nat → Chars → Chars
  | 0, t => t
  | _ + 1, [] => []
  | f + 1, c :: cs =>
    match scopeTry (c :: cs) with
    | some (repl, rest) => repl ++ scopeSubGo f rest
    | none => c :: scopeSubGo f cs

def applySubstRule (r : SubstRule) (text : Chars) : Chars :=
  match r with
  | .lits alts repl => subLitsGo alts repl text.length text
  | .scopeOp => scopeSubGo text.length text

/-- The first loop of `cpp2python`: the table rules applied in dict order. -/
def substPass (table : List SubstRule) (text : Chars) : Chars :=
  table.foldl (fun t r => applySubstRule r t) text

/-! ### The substitution table, in dict insertion order -/

def int_types : List String :=
  ["int8_t", "uint8_t", "int16_t", "uint16_t", "int32_t", "uint32_t",
   "int64_t", "uint64_t", "ssize_t", "size_t"]

def string_types : List String :=
  ["const char *", "const char16_t *", "const char32_t *", "const wchar_t *",
   "std::string", "std::u16string", "std::u32string", "std::wstring"]

def list_types : List String :=
  ["std::vector", "std::deque", "std::list", "std::array", "std::valarray"]

def set_types : List String := ["std::set", "std::unordered_set"]

def dict_types : List String := ["std::map", "std::unordered_map"]

def tuple_types : List String := ["std::pair", "std::tuple"]

def optional_types : List String :=
  ["std::optional", "std::experimental::optional", "boost::optional"]

def pointer_types : List String := ["std::unique_ptr", "std::shared_ptr"]

def type_substitutions : List SubstRule :=
  [ .lits [toAlt "true"] "True".toList,
    .lits [toAlt "false"] "False".toList,
    .lits [toAlt "std::nullopt", toAlt "boost::none"] "None".toList,
    .lits [toAlt "double"] "float".toList,
    .lits (int_types.map toAlt) "int".toList,
    .lits (string_types.map toAlt) "str".toList,
    .lits (list_types.map toAlt) "List".toList,
    .lits (set_types.map toAlt) "Set".toList,
    .lits (dict_types.map toAlt) "Dict".toList,
    .lits (tuple_types.map toAlt) "Tuple".toList,
    .lits (optional_types.map toAlt) "Optional".toList,
    .lits (pointer_types.map toAlt) "Pointer".toList,
    .lits [toAlt "std::exception"] "RuntimeError".toList,
    .lits [toAlt "std::bad_alloc"] "MemoryError".toList,
    .lits [toAlt "std::domain_error", toAlt "std::length_error",
           toAlt "std::invalid_argument", toAlt "std::range_error",
           toAlt "pybind11::value_error"] "ValueError".toList,
    .lits [toAlt "std::out_of_range", toAlt "pybind11::index_error"] "IndexError".toList,
    .lits [toAlt "std::overflow_error"] "OverflowError".toList,
    .lits [toAlt "pybind11::stop_iteration"] "StopIteration".toList,
    .lits [toAlt "pybind11::key_error"] "KeyError".toList ]

def scopeRule : SubstRule := .scopeOp

/-- Is the scope-operator rule's key already present in the table? -/
def hasScopeRule (t : List SubstRule) : Bool :=
  t.any fun r =>
    match r with
    | .scopeOp => true
    | .lits _ _ => false

/-- Effect of `DoxygenTranslator.__init__` on the class-level table: when
`translate_scope_operator` is set, the scope rule is stored under its key
(appended once; re-storing an existing key keeps the dict unchanged). -/
def ctorTable (translate_scope_operator : Bool) (t : List SubstRule) : List SubstRule :=
  if translate_scope_operator then (if hasScopeRule t then t else t ++ [scopeRule]) else t

/-! ## Bracket rewriting (second half of `cpp2python`) -/

def template_types : List String := ["List", "Set", "Dict", "Tuple", "Optional", "Pointer"]

/-- First template name (in alternation order) such that `name<` is a
prefix of `cs`. -/
def templateOpenAt : List String → Chars → Option (String × Chars)
  | [], _ => none
  | t :: rest, cs =>
    if (t ++ "<").toList.isPrefixOf cs then some (t, cs.drop (t.length + 1))
    else templateOpenAt rest cs

/-- `re.subn` of `(List|Set|Dict|Tuple|Optional|Pointer)<` → `\1[`. -/
def subnTemplatesGo : Nat → Chars → Chars × Nat
  | 0, t => (t, 0)
  | _ + 1, [] => ([], 0)
  | f + 1, c :: cs =>
    match templateOpenAt template_types (c :: cs) with
    | some (t, rest) =>
      let (r, n) := subnTemplatesGo f rest
      ((t ++ "[").toList ++ r, n + 1)
    | none =>
      let (r, n) := subnTemplatesGo f cs
      (c :: r, n)

/-- Python `text.split('>')`. -/
def splitOnGt : Chars → List Chars
  | [] => [[]]
  | c :: cs =>
    if c = '>' then [] :: splitOnGt cs
    else
      match splitOnGt cs with
      | s :: ss => (c :: s) :: ss
      | [] => [[c]]

/-- The bracket-rewriting loop of `cpp2python` over the spans (all but
the last get their closing character appended), also returning the
sequence of depth values tested at each span boundary (the value of
`depth` right after `depth += delta_depth`).  The depth is an integer,
exactly as in the source. -/
def rebracketLoop (depth : Int) : List Chars → Chars × List Int
  | [] => ([], [])
  | [last] => (last, [])
  | span :: next :: rest =>
    let p := subnTemplatesGo span.length span
    let d := depth + (p.2 : Int)
    if 0 < d then
      let q := rebracketLoop (d - 1) (next :: rest)
      (p.1 ++ ']' :: q.1, d :: q.2)
    else
      let q := rebracketLoop d (next :: rest)
      (p.1 ++ '>' :: q.1, d :: q.2)

def DoxygenTranslator.cpp2python (table : List SubstRule) (text : Chars) : Chars :=
  (rebracketLoop 0 (splitOnGt (substPass table text))).1

/-- Depth values tested during the bracket-rewriting scan of `text`. -/
def depthTraceOf (table : List SubstRule) (text : Chars) : List Int :=
  (rebracketLoop 0 (splitOnGt (substPass table text))).2

/-- The class-level table after a default construction
(`translate_scope_operator=True` appends the scope rule). -/
def defaultTable : List SubstRule := ctorTable true type_substitutions

def cpp2pythonStr (s : String) : String :=
  (DoxygenTranslator.cpp2python defaultTable s.toList).asString

/-! ## Section kinds (`DoxygenSection` and subclasses)

One record covers the class family: `untitled` marks
`DoxygenUntitledSection` (empty indent, empty title line), `labeled`
marks `DoxygenLabeledSection`, `paramTag` marks `ParamSection`'s extra
`(?:\[(?:in|out|,)*\])?` in the tag regex, `unsupported` marks the
warning mixin. -/

structure SectionKind where
  tag : String
  synonyms : List String
  title : String
  untitled : Bool
  labeled : Bool
  paramTag : Bool
  indent : Chars
  nextLinesExtraIndent : Bool
  hidden : Bool
  unsupported : Bool
deriving Repr, DecidableEq

/-- First synonym, in list order, that is a prefix at this position (the
regex alternation; the rest of a section pattern always succeeds, so no
backtracking across alternatives occurs). -/
def firstSyn (syns : List String) (cs : Chars) : Option Chars :=
  match syns with
  | [] => none
  | s :: rest =>
    if s.toList.isPrefixOf cs then some (cs.drop s.toList.length)
    else firstSyn rest cs

/-- The `(?:in|out|,)*\]` part of `ParamSection.tag_regex` after `[`. -/
def paramDirChomp : Nat → Chars → Option Chars
  | 0, _ => none
  | f + 1, cs =>
    if "in".toList.isPrefixOf cs then paramDirChomp f (cs.drop 2)
    else if "out".toList.isPrefixOf cs then paramDirChomp f (cs.drop 3)
    else if ",".toList.isPrefixOf cs then paramDirChomp f (cs.drop 1)
    else
      match cs with
      | ']' :: rest => some rest
      | _ => none

/-- Match of `tag_regex` at the start of `text`: `[\\@]` then a synonym,
plus the optional direction bracket for `param`. -/
def SectionKind.tagMatch (k : SectionKind) (text : Chars) : Option Chars :=
  match text with
  | [] => none
  | c :: cs =>
    if c == '@' || c == '\\' then
      match firstSyn k.synonyms cs with
      | none => none
      | some rest =>
        if k.paramTag then
          match rest with
          | '[' :: bs =>
            match paramDirChomp (bs.length + 1) bs with
            | some rest2 => some rest2
            | none => some rest
          | _ => some rest
        else some rest
    else none

/-- The optional group `(?:\s+(?P<body>[\w\W]*))?`: at least one
whitespace character (greedy), then everything else.  `none` when the
group does not participate. -/
def wsThenBody (r : Chars) : Option Chars :=
  match r with
  | [] => none
  | c :: cs => if isPySpace c then some ((c :: cs).dropWhile isPySpace) else none

/-- The group `(:?\s+(?P<body>[\w\W]*))?` of `DoxygenSection.before_regex`
(note the source's literal-colon `(:?`, not `(?:`). -/
def optColonBody (rest : Chars) : Option Chars :=
  match rest with
  | ':' :: r1 => wsThenBody r1
  | r => wsThenBody r

/-- The optional group `(?:\s+(?P<label>\S+))?`: returns the label (if
the group participates) and the remainder of the text after it. -/
def labelParse (rest : Chars) : Option Chars × Chars :=
  match rest with
  | [] => (none, rest)
  | c :: cs =>
    if isPySpace c then
      match (c :: cs).dropWhile isPySpace with
      | [] => (none, rest)
      | afterWs =>
        (some (afterWs.takeWhile (fun x => !isPySpace x)),
         afterWs.dropWhile (fun x => !isPySpace x))
    else (none, rest)

/-- `re.sub(r"\n\s*", "\n" + indent, text)`: every newline and the
(greedy) whitespace run after it collapse to a newline plus the given
indent. -/
def nlIndentSub (indent : Chars) : Nat → Chars → Chars
  | 0, t => t
  | _ + 1, [] => []
  | f + 1, c :: cs =>
    if c == '\n' then '\n' :: (indent ++ nlIndentSub indent f (cs.dropWhile isPySpace))
    else c :: nlIndentSub indent f cs

def SectionKind.titleLine (k : SectionKind) : Chars :=
  if k.untitled then [] else k.title.toList ++ (":\n").toList

def warnMsg (tag : String) : Chars :=
  ("Unsupported Doxygen command detected: \\" ++ tag ++ " or @" ++ tag).toList

/-- `DoxygenSection.translate_n` (and its overrides): anchored match of
`before_regex`, expansion of `after_regex` with unmatched groups as empty
strings, continuation-line re-indent, optional title line; the warning
mixin records one warning when a match occurred.  The attempt returns the
reformatted section and a match count, plus the warnings issued. -/
def DoxygenSection.translate_n (k : SectionKind) (text : Chars) (includeTitle : Bool) :
    (Chars × Nat) × List Chars :=
  match k.tagMatch text with
  | none => ((text, 0), [])
  | some rest =>
    let result :=
      if k.hidden then []
      else
        let expanded :=
          if k.labeled then
            let (l, rem) := labelParse rest
            k.indent ++ l.getD [] ++ (": ").toList ++ (wsThenBody rem).getD []
          else
            k.indent ++ (optColonBody rest).getD []
        let nli := if k.nextLinesExtraIndent then k.indent ++ k.indent else k.indent
        let e2 := nlIndentSub nli expanded.length expanded
        if includeTitle then '\n' :: (k.titleLine ++ e2) else e2
    ((result, 1), if k.unsupported then [warnMsg k.tag] else [])

/-! ## Visual-enhancement and HTML commands -/

structure VisualKind where
  synonyms : List String
  fmtPre : Chars
  fmtPost : Chars
  isHtml : Bool
  unsupported : Bool
deriving Repr, DecidableEq

/-- After `\s+`, a greedy `\S+` word; `none` if either fails. -/
def visWordAfter (r : Chars) : Option (Chars × Chars) :=
  match r with
  | [] => none
  | c :: cs =>
    if isPySpace c then
      match (c :: cs).dropWhile isPySpace with
      | [] => none
      | afterWs =>
        let w := afterWs.takeWhile (fun x => !isPySpace x)
        some (w, afterWs.drop w.length)
    else none

/-- Alternation over synonyms with backtracking: the first synonym that
is a prefix here and is followed by `\s+\S+` wins. -/
def visTryAlts (syns : List String) (cs : Chars) : Option (Chars × Chars) :=
  match syns with
  | [] => none
  | s :: rest =>
    match (if s.toList.isPrefixOf cs then visWordAfter (cs.drop s.toList.length) else none) with
    | some r => some r
    | none => visTryAlts rest cs

/-- `re.subn` of `[\\@](?:syn|…)\s+(?P<word>\S+)` → `pre\1post`
(`DoxygenVisualEnhancement.translate_n` body). -/
def DoxygenVisualEnhancement.subn (syns : List String) (pre post : Chars) :
    Nat → Chars → Chars × Nat
  | 0, t => (t, 0)
  | _ + 1, [] => ([], 0)
  | f + 1, c :: cs =>
    if c == '@' || c == '\\' then
      match visTryAlts syns cs with
      | some (w, rest) =>
        let (r, n) := DoxygenVisualEnhancement.subn syns pre post f rest
        (pre ++ w ++ post ++ r, n + 1)
      | none =>
        let (r, n) := DoxygenVisualEnhancement.subn syns pre post f cs
        (c :: r, n)
    else
      let (r, n) := DoxygenVisualEnhancement.subn syns pre post f cs
      (c :: r, n)

/-- Interior of a lazily matched `[\w\W]*?` up to the first occurrence of
the closing tag, together with the rest of the text after it. -/
def findClose (closeTag : Chars) : Nat → Chars → Option (Chars × Chars)
  | 0, _ => none
  | _ + 1, [] => none
  | f + 1, c :: cs =>
    if closeTag.isPrefixOf (c :: cs) then some ([], (c :: cs).drop closeTag.length)
    else
      match findClose closeTag f cs with
      | some (intr, rest) => some (c :: intr, rest)
      | none => none

/-- `re.subn(r'<tag>([\w\W]*?)</tag>', fmt, text)` for one tag name. -/
def htmlSubn (tagName : Chars) (pre post : Chars) : Nat → Chars → Chars × Nat
  | 0, t => (t, 0)
  | _ + 1, [] => ([], 0)
  | f + 1, c :: cs =>
    if ('<' :: tagName ++ ['>']).isPrefixOf (c :: cs) then
      let after := (c :: cs).drop (tagName.length + 2)
      match findClose ('<' :: '/' :: tagName ++ ['>']) after.length after with
      | some (intr, rest) =>
        let (r, n) := htmlSubn tagName pre post f rest
        (pre ++ intr ++ post ++ r, n + 1)
      | none =>
        let (r, n) := htmlSubn tagName pre post f cs
        (c :: r, n)
    else
      let (r, n) := htmlSubn tagName pre post f cs
      (c :: r, n)

def asciiLowerStr (s : String) : String := (s.toList.map Char.toLower).asString

def asciiUpperStr (s : String) : String := (s.toList.map Char.toUpper).asString

/-- The tag-name case variants tried by `DoxygenHtmlCommand.translate_n`:
`chain(map(str.lower, synonyms), map(str.upper, synonyms))`. -/
def htmlVariants (syns : List String) : List String :=
  syns.map asciiLowerStr ++ syns.map asciiUpperStr

/-- One iteration of the case-variant loop of
`DoxygenHtmlCommand.translate_n`. -/
def htmlStep (pre post : Chars) (acc : Chars × Nat) (tn : String) : Chars × Nat :=
  let r := htmlSubn tn.toList pre post acc.1.length acc.1
  (r.1, acc.2 + r.2)

/-- `DoxygenHtmlCommand.translate_n`: one `re.subn` per case variant,
threading the text and accumulating the count. -/
def DoxygenHtmlCommand.translate_n (syns : List String) (pre post : Chars)
    (text : Chars) : Chars × Nat :=
  (htmlVariants syns).foldl (htmlStep pre post) (text, 0)

/-- Dispatch over the two visual-command families, with the unsupported
mixin's warning. -/
def VisualKind.translate_n (v : VisualKind) (text : Chars) : (Chars × Nat) × List Chars :=
  let (t, n) :=
    if v.isHtml then DoxygenHtmlCommand.translate_n v.synonyms v.fmtPre v.fmtPost text
    else DoxygenVisualEnhancement.subn v.synonyms v.fmtPre v.fmtPost text.length text
  ((t, n), if v.unsupported && decide (0 < n) then [warnMsg (v.synonyms.headD "")] else [])

/-! ## Translator configuration (`DoxygenTranslator.__init__`) -/

structure TransConfig where
  return_includes_type_tag : Bool := false
  hide_tparam : Bool := true
deriving Repr, DecidableEq

/-- `str.capitalize`: first character uppercased, the rest lowercased
(used for the default title of sections constructed without one). -/
def capitalizeStr (s : String) : String :=
  match s.toList with
  | [] => ""
  | c :: cs => (c.toUpper :: cs.map Char.toLower).asString

def ParamSection : SectionKind :=
  { tag := "param", synonyms := ["param"], title := "Args", untitled := false,
    labeled := true, paramTag := true, indent := "    ".toList,
    nextLinesExtraIndent := true, hidden := false, unsupported := false }

def returnSection (cfg : TransConfig) : SectionKind :=
  { tag := "return", synonyms := ["return"], title := "Returns", untitled := false,
    labeled := cfg.return_includes_type_tag, paramTag := false, indent := "    ".toList,
    nextLinesExtraIndent := false, hidden := false, unsupported := false }

def briefSection : SectionKind :=
  { tag := "brief", synonyms := ["brief", "short"], title := capitalizeStr "brief", untitled := true,
    labeled := false, paramTag := false, indent := [],
    nextLinesExtraIndent := true, hidden := false, unsupported := false }

def tparamSection (cfg : TransConfig) : SectionKind :=
  { tag := "tparam", synonyms := ["tparam"], title := "Type parameter (C++ only)",
    untitled := false, labeled := true, paramTag := false, indent := "    ".toList,
    nextLinesExtraIndent := true, hidden := cfg.hide_tparam, unsupported := false }

def retvalSection : SectionKind :=
  { tag := "retval", synonyms := ["retval"], title := "Returns", untitled := false,
    labeled := true, paramTag := false, indent := "    ".toList,
    nextLinesExtraIndent := true, hidden := false, unsupported := false }

def exceptionSection : SectionKind :=
  { tag := "exception", synonyms := ["exception", "throw", "throws"], title := "Raises",
    untitled := false, labeled := true, paramTag := false, indent := "    ".toList,
    nextLinesExtraIndent := true, hidden := false, unsupported := false }

def overloadSection : SectionKind :=
  { tag := "overload", synonyms := ["overload"], title := capitalizeStr "overload", untitled := true,
    labeled := false, paramTag := false, indent := [],
    nextLinesExtraIndent := true, hidden := false, unsupported := true }

def remarkSection : SectionKind :=
  { tag := "remark", synonyms := ["remark", "note"], title := "Notes", untitled := false,
    labeled := false, paramTag := false, indent := "    ".toList,
    nextLinesExtraIndent := true, hidden := false, unsupported := false }

def seeSection : SectionKind :=
  { tag := "see", synonyms := ["see", "sa"], title := "See also", untitled := false,
    labeled := false, paramTag := false, indent := "    ".toList,
    nextLinesExtraIndent := true, hidden := false, unsupported := false }

def authorSection : SectionKind :=
  { tag := "author", synonyms := ["author", "authors"], title := capitalizeStr "author",
    untitled := false, labeled := false, paramTag := false, indent := "    ".toList,
    nextLinesExtraIndent := true, hidden := false, unsupported := false }

def copyrightSection : SectionKind :=
  { tag := "copyright", synonyms := ["copyright"], title := capitalizeStr "copyright",
    untitled := false, labeled := false, paramTag := false, indent := "    ".toList,
    nextLinesExtraIndent := true, hidden := false, unsupported := false }

def dateSection : SectionKind :=
  { tag := "date", synonyms := ["date"], title := capitalizeStr "date", untitled := false,
    labeled := false, paramTag := false, indent := "    ".toList,
    nextLinesExtraIndent := true, hidden := false, unsupported := false }

def detailsSection : SectionKind :=
  { tag := "details", synonyms := ["details"], title := capitalizeStr "details",
    untitled := false, labeled := false, paramTag := false, indent := "    ".toList,
    nextLinesExtraIndent := true, hidden := false, unsupported := false }

def extendsSection : SectionKind :=
  { tag := "extends", synonyms := ["extends"], title := capitalizeStr "extends",
    untitled := false, labeled := false, paramTag := false, indent := "    ".toList,
    nextLinesExtraIndent := true, hidden := false, unsupported := false }

def ingroupSection : SectionKind :=
  { tag := "ingroup", synonyms := ["ingroup"], title := "In Group", untitled := false,
    labeled := false, paramTag := false, indent := "    ".toList,
    nextLinesExtraIndent := true, hidden := false, unsupported := true }

/-- `self.section_types`, in construction order (tried in this order;
first match wins). -/
def sectionTypes (cfg : TransConfig) : List SectionKind :=
  [ParamSection, returnSection cfg, briefSection, tparamSection cfg, retvalSection,
   exceptionSection, overloadSection, remarkSection, seeSection, authorSection,
   copyrightSection, dateSection, detailsSection, extendsSection, ingroupSection]

def aVisual : VisualKind :=
  { synonyms := ["a", "e", "em"], fmtPre := "*".toList, fmtPost := "*".toList,
    isHtml := false, unsupported := false }

def bVisual : VisualKind :=
  { synonyms := ["b"], fmtPre := "**".toList, fmtPost := "**".toList,
    isHtml := false, unsupported := false }

def cVisual : VisualKind :=
  { synonyms := ["c"], fmtPre := "``".toList, fmtPost := "``".toList,
    isHtml := false, unsupported := false }

def bHtml : VisualKind :=
  { synonyms := ["b"], fmtPre := "**".toList, fmtPost := "**".toList,
    isHtml := true, unsupported := false }

def emHtml : VisualKind :=
  { synonyms := ["em"], fmtPre := "*".toList, fmtPost := "*".toList,
    isHtml := true, unsupported := false }

def ttHtml : VisualKind :=
  { synonyms := ["tt"], fmtPre := "``".toList, fmtPost := "``".toList,
    isHtml := true, unsupported := false }

def refVisual : VisualKind :=
  { synonyms := ["ref"], fmtPre := "\\ref ".toList, fmtPost := [],
    isHtml := false, unsupported := true }

def preHtml : VisualKind :=
  { synonyms := ["pre"], fmtPre := "\n```".toList, fmtPost := "\n```\n".toList,
    isHtml := true, unsupported := true }

def liHtml : VisualKind :=
  { synonyms := ["li"], fmtPre := "\n- ".toList, fmtPost := [],
    isHtml := true, unsupported := true }

/-- `self.visual_commands`, in construction order. -/
def visual_commands : List VisualKind :=
  [aVisual, bVisual, cVisual, bHtml, emHtml, ttHtml, refVisual, preHtml, liHtml]

/-! ## Section splitting and the orchestrator (`DoxygenTranslator.translate`) -/

def allTagNames (kinds : List SectionKind) : List String :=
  (kinds.map SectionKind.synonyms).flatten

/-- The lookahead `(?=tag1|tag2|…)`: some section tag matches here. -/
def tagStart (names : List String) : Chars → Bool
  | [] => false
  | c :: cs => (c == '@' || c == '\\') && names.any (fun n => n.toList.isPrefixOf cs)

/-- One match of the delimiter `\n+(?:\n|(?=tags))` at the current
position: a maximal run of `k ≥ 2` newlines is consumed whole; a single
newline is a delimiter only when a section tag follows (by lookahead). -/
def delimMatch (names : List String) (text : Chars) : Option Chars :=
  match text with
  | [] => none
  | c :: cs =>
    if c = '\n' then
      if cs.takeWhile (· == '\n') = [] then
        if tagStart names cs then some cs else none
      else some (cs.dropWhile (· == '\n'))
    else none

/-- `re.split` scan: each delimiter match ends the current piece. -/
def splitGo (names : List String) : Nat → Chars → Chars → List Chars
  | 0, acc, rest => [acc ++ rest]
  | _ + 1, acc, [] => [acc]
  | f + 1, acc, c :: cs =>
    match delimMatch names (c :: cs) with
    | some rest => acc :: splitGo names f [] rest
    | none => splitGo names f (acc ++ [c]) cs

def splitSections (names : List String) (comment : Chars) : List Chars :=
  splitGo names (comment.length + 1) [] comment

/-- The inner loop of `translate` over `section_types` (paired with their
position): the first kind whose pattern matches rewrites the section and
becomes the new `previous_section_type`; a title is included only when
the kind differs from the previous section's kind.  When no kind matches,
the section is a plain paragraph prefixed with a newline. -/
def matchKinds : List (Nat × SectionKind) → Option Nat → Chars →
    Chars × Option Nat × List Chars
  | [], prev, text => ('\n' :: text, prev, [])
  | (i, k) :: rest, prev, text =>
    let ((t, n), w) := DoxygenSection.translate_n k text (some i != prev)
    if 0 < n then (t, some i, w)
    else
      let (t2, p2, w2) := matchKinds rest prev text
      (t2, p2, w ++ w2)

/-- `re.fullmatch(r'\s?', section)`: empty or a single whitespace
character. -/
def wsQmark : Chars → Bool
  | [] => true
  | [c] => isPySpace c
  | _ => false

/-- One visual command applied to the section text, accumulating
warnings (the body of the `for visual_command in self.visual_commands`
loop). -/
def applyVisual (p : Chars × List Chars) (v : VisualKind) : Chars × List Chars :=
  let r := VisualKind.translate_n v p.1
  (r.1.1, p.2 ++ r.2)

def applyVisuals (t : Chars) : Chars × List Chars :=
  visual_commands.foldl applyVisual (t, [])

/-- One iteration of the `for section in sections` loop of `translate`:
the state carries the accumulated output, `previous_section_type` (as a
position in `section_types`), and the warnings issued so far. -/
def translateStep (cfg : TransConfig) (table : List SubstRule)
    (st : Chars × Option Nat × List Chars) (sec : Chars) :
    Chars × Option Nat × List Chars :=
  let (t1, prev2, w1) := matchKinds (sectionTypes cfg).enum st.2.1 sec
  let (t2, w2) := applyVisuals t1
  if wsQmark t2 then (st.1, prev2, st.2.2 ++ w1 ++ w2)
  else (st.1 ++ DoxygenTranslator.cpp2python table t2 ++ ['\n'], prev2, st.2.2 ++ w1 ++ w2)

/-- `DoxygenTranslator.translate`, instrumented to also return the
warnings issued (in order).  `table` is the class-level substitution
table as it stands at call time. -/
def translateAll (cfg : TransConfig) (table : List SubstRule) (comment : Chars) :
    Chars × List Chars :=
  let secs := splitSections (allTagNames (sectionTypes cfg)) comment
  let r := secs.foldl (translateStep cfg table) ([], none, [])
  (r.1, r.2.2)

def DoxygenTranslator.translate (cfg : TransConfig) (table : List SubstRule)
    (comment : String) : String :=
  (translateAll cfg table comment.toList).1.asString

def translateWarnings (cfg : TransConfig) (table : List SubstRule)
    (comment : String) : List String :=
  ((translateAll cfg table comment.toList).2).map List.asString

/-- A freshly default-constructed translator: default flags, class table
holding the scope rule. -/
def translateDefault (comment : String) : String :=
  DoxygenTranslator.translate {} defaultTable comment

def defaultWarnings (comment : String) : List String :=
  translateWarnings {} defaultTable comment

/-! ## Predicates used to state the quantified claims -/

/-- No alternative of the rule occurs in `t` (so the rule's `re.sub`
leaves `t` unchanged); for the scope rule, `t` has no `::`. -/
def ruleClean (r : SubstRule) (t : Chars) : Bool :=
  match r with
  | .lits alts _ => alts.all (fun a => !(hasSub a.lit t))
  | .scopeOp => !(hasSub [':', ':'] t)

/-- No rule of the default table fires anywhere in `t`. -/
def sectionClean (t : Chars) : Bool := defaultTable.all (fun r => ruleClean r t)

/-- A parameter label made of lowercase ASCII letters. -/
def goodLabel (l : Chars) : Bool := !l.isEmpty && l.all Char.isLower

/-- A parameter body made of lowercase ASCII letters and spaces, starting
with a letter. -/
def goodBody (b : Chars) : Bool :=
  match b with
  | [] => false
  | c :: _ => c.isLower && b.all (fun x => x.isLower || x == ' ')

/-! # Helper lemmas -/

set_option maxRecDepth 100000

theorem rebracketLoop_trace_nonneg :
    ∀ (spans : List Chars) (d : Int), 0 ≤ d → ∀ x ∈ (rebracketLoop d spans).2, 0 ≤ x := by
  intro spans
  induction spans with
  | nil => intro d _ x hx; simp [rebracketLoop] at hx
  | cons span rest ih =>
    intro d hd x hx
    cases rest with
    | nil => simp [rebracketLoop] at hx
    | cons next rrest =>
      have hdc : (0 : Int) ≤ ((subnTemplatesGo span.length span).2 : Int) :=
        Int.ofNat_nonneg _
      rw [rebracketLoop] at hx
      by_cases h : (0 : Int) < d + ((subnTemplatesGo span.length span).2 : Int)
      · simp only [h, if_pos] at hx
        rcases List.mem_cons.mp hx with rfl | hx2
        · omega
        · exact ih _ (by omega) x hx2
      · simp only [h, if_neg, if_false] at hx
        rcases List.mem_cons.mp hx with rfl | hx2
        · omega
        · exact ih _ (by omega) x hx2

theorem delimMatch_ne (names : List String) (c : Char) (cs : Chars) (hc : c ≠ '\n') :
    delimMatch names (c :: cs) = none := by
  simp [delimMatch, hc]

theorem splitGo_nil (names : List String) (f : Nat) (acc : Chars) :
    splitGo names f acc [] = [acc] := by
  cases f <;> simp [splitGo]

/-- The `re.split` scan passes over newline-free text, accumulating it
into the current piece. -/
theorem splitGo_append_no_nl (names : List String) (xs : Chars)
    (hxs : ∀ c ∈ xs, c ≠ '\n') :
    ∀ (f : Nat) (acc rest : Chars),
      splitGo names (xs.length + f) acc (xs ++ rest) = splitGo names f (acc ++ xs) rest := by
  induction xs with
  | nil => intro f acc rest; simp
  | cons x xs' ih =>
    intro f acc rest
    have hx : x ≠ '\n' := hxs x (List.mem_cons_self _ _)
    have h1 : (x :: xs').length + f = (xs'.length + f) + 1 := by
      simp [List.length_cons]; omega
    rw [h1]
    show splitGo names ((xs'.length + f) + 1) acc (x :: (xs' ++ rest)) = _
    simp only [splitGo, delimMatch_ne names x _ hx]
    rw [ih (fun c hc => hxs c (List.mem_cons_of_mem _ hc)) f (acc ++ [x]) rest]
    simp

theorem nlIndentSub_id (ind : Chars) (t : Chars) (h : ∀ c ∈ t, c ≠ '\n') :
    ∀ f : Nat, nlIndentSub ind f t = t := by
  induction t with
  | nil => intro f; cases f <;> simp [nlIndentSub]
  | cons c cs ih =>
    intro f
    cases f with
    | zero => simp [nlIndentSub]
    | succ f =>
      have hc : (c == '\n') = false := by
        have := h c (List.mem_cons_self _ _); simp [this]
      simp [nlIndentSub, hc, ih (fun d hd => h d (List.mem_cons_of_mem _ hd)) f]

theorem visSubn_id (syns : List String) (pre post : Chars) (t : Chars)
    (h : ∀ c ∈ t, c ≠ '@' ∧ c ≠ '\\') :
    ∀ f : Nat, DoxygenVisualEnhancement.subn syns pre post f t = (t, 0) := by
  induction t with
  | nil => intro f; cases f <;> simp [DoxygenVisualEnhancement.subn]
  | cons c cs ih =>
    intro f
    cases f with
    | zero => simp [DoxygenVisualEnhancement.subn]
    | succ f =>
      have hcp := h c (List.mem_cons_self _ _)
      have hc : (c == '@' || c == '\\') = false := by simp [hcp.1, hcp.2]
      simp [DoxygenVisualEnhancement.subn, hc,
        ih (fun d hd => h d (List.mem_cons_of_mem _ hd)) f]

theorem htmlSubn_id (tagName pre post : Chars) (t : Chars) (h : ∀ c ∈ t, c ≠ '<') :
    ∀ f : Nat, htmlSubn tagName pre post f t = (t, 0) := by
  induction t with
  | nil => intro f; cases f <;> simp [htmlSubn]
  | cons c cs ih =>
    intro f
    cases f with
    | zero => simp [htmlSubn]
    | succ f =>
      have hlt : ('<' == c) = false := by
        have := h c (List.mem_cons_self _ _)
        simp [Ne.symm this]
      have hc : (('<' :: tagName ++ ['>']).isPrefixOf (c :: cs)) = false := by
        simp [List.isPrefixOf, hlt]
      have ih' := ih (fun d hd => h d (List.mem_cons_of_mem _ hd)) f
      simp only [htmlSubn, hc, Bool.false_eq_true, if_false, ih']

theorem htmlStep_id (pre post : Chars) (t : Chars) (h : ∀ c ∈ t, c ≠ '<')
    (n : Nat) (tn : String) : htmlStep pre post (t, n) tn = (t, n) := by
  simp only [htmlStep, htmlSubn_id tn.toList pre post t h]
  simp

theorem htmlCmd_id (syns : List String) (pre post : Chars) (t : Chars)
    (h : ∀ c ∈ t, c ≠ '<') :
    DoxygenHtmlCommand.translate_n syns pre post t = (t, 0) := by
  unfold DoxygenHtmlCommand.translate_n
  generalize htmlVariants syns = names
  induction names with
  | nil => rfl
  | cons name rest ih => rw [List.foldl_cons, htmlStep_id pre post t h 0 name]; exact ih

theorem visualKind_id (v : VisualKind) (t : Chars)
    (h : ∀ c ∈ t, c ≠ '@' ∧ c ≠ '\\' ∧ c ≠ '<') :
    VisualKind.translate_n v t = ((t, 0), []) := by
  unfold VisualKind.translate_n
  by_cases hv : v.isHtml = true
  · simp [hv, htmlCmd_id v.synonyms v.fmtPre v.fmtPost t (fun c hc => (h c hc).2.2)]
  · simp [hv, visSubn_id v.synonyms v.fmtPre v.fmtPost t
      (fun c hc => ⟨(h c hc).1, (h c hc).2.1⟩)]

theorem applyVisuals_id (t : Chars)
    (h : ∀ c ∈ t, c ≠ '@' ∧ c ≠ '\\' ∧ c ≠ '<') :
    applyVisuals t = (t, []) := by
  unfold applyVisuals visual_commands
  simp [List.foldl_cons, applyVisual, visualKind_id _ t h]

theorem hasSub_cons_false (p : Chars) (c : Char) (cs : Chars)
    (h : hasSub p (c :: cs) = false) :
    p.isPrefixOf (c :: cs) = false ∧ hasSub p cs = false := by
  rw [hasSub] at h
  exact Bool.or_eq_false_iff.mp h

theorem findAlt_none_of_clean (alts : List LitAlt) (c : Char) (cs : Chars)
    (h : ∀ a ∈ alts, hasSub a.lit (c :: cs) = false) :
    findAlt alts (c :: cs) = none := by
  induction alts with
  | nil => rfl
  | cons a rest ih =>
    have hp : a.lit.isPrefixOf (c :: cs) = false :=
      (hasSub_cons_false _ _ _ (h a (List.mem_cons_self _ _))).1
    simp only [findAlt, litAltMatchLen, hp, Bool.false_eq_true, if_false]
    exact ih (fun a ha => h a (List.mem_cons_of_mem _ ha))

theorem subLitsGo_id (alts : List LitAlt) (repl : Chars) (t : Chars)
    (h : ∀ a ∈ alts, hasSub a.lit t = false) :
    ∀ f : Nat, subLitsGo alts repl f t = t := by
  induction t with
  | nil => intro f; cases f <;> simp [subLitsGo]
  | cons c cs ih =>
    intro f
    cases f with
    | zero => simp [subLitsGo]
    | succ f =>
      simp only [subLitsGo, findAlt_none_of_clean alts c cs h,
        ih (fun a ha => (hasSub_cons_false _ _ _ (h a ha)).2) f]

theorem hasSub_drop (p : Chars) : ∀ (l : Nat) (t : Chars),
    hasSub p (t.drop l) = true → hasSub p t = true := by
  intro l
  induction l with
  | zero => intro t h; simpa using h
  | succ l ih =>
    intro t h
    cases t with
    | nil => simpa using h
    | cons c cs =>
      rw [List.drop_succ_cons] at h
      rw [hasSub, ih cs h, Bool.or_true]

theorem scopeTryLen_none (t : Chars) (h : hasSub [':', ':'] t = false) (l : Nat) :
    scopeTryLen t l = none := by
  unfold scopeTryLen
  split
  · rename_i b c1 c2 cc rest heq
    rw [if_neg]
    rintro ⟨rfl, rfl, -, -⟩
    have h1 : hasSub [':', ':'] (t.drop l) = true := by
      rw [heq]
      simp [hasSub, List.isPrefixOf]
    rw [hasSub_drop _ l t h1] at h
    exact Bool.true_eq_false.mp h
  · rfl

theorem scopeDesc_none (t : Chars) (h : hasSub [':', ':'] t = false) :
    ∀ n : Nat, scopeDesc t n = none := by
  intro n
  induction n with
  | zero => simp [scopeDesc, scopeTryLen_none t h 0]
  | succ n ih => simp [scopeDesc, scopeTryLen_none t h (n + 1), ih]

theorem scopeSubGo_id (t : Chars) (h : hasSub [':', ':'] t = false) :
    ∀ f : Nat, scopeSubGo f t = t := by
  induction t with
  | nil => intro f; cases f <;> simp [scopeSubGo]
  | cons c cs ih =>
    intro f
    cases f with
    | zero => simp [scopeSubGo]
    | succ f =>
      have hs : scopeTry (c :: cs) = none := by
        unfold scopeTry; exact scopeDesc_none (c :: cs) h _
      simp only [scopeSubGo, hs, ih (hasSub_cons_false _ _ _ h).2 f]

theorem applySubstRule_id (r : SubstRule) (t : Chars) (h : ruleClean r t = true) :
    applySubstRule r t = t := by
  cases r with
  | lits alts repl =>
    simp only [ruleClean] at h
    have h' : ∀ a ∈ alts, hasSub a.lit t = false := by
      intro a ha
      have := (List.all_eq_true.mp h) a ha
      simpa using this
    exact subLitsGo_id alts repl t h' _
  | scopeOp =>
    simp only [ruleClean] at h
    have h' : hasSub [':', ':'] t = false := by simpa using h
    exact scopeSubGo_id t h' _

theorem substPass_id (table : List SubstRule) (t : Chars)
    (h : table.all (fun r => ruleClean r t) = true) :
    substPass table t = t := by
  induction table with
  | nil => rfl
  | cons r rs ih =>
    rw [List.all_cons, Bool.and_eq_true] at h
    show substPass rs (applySubstRule r t) = t
    rw [applySubstRule_id r t h.1]
    exact ih h.2

theorem splitOnGt_no_gt (t : Chars) (h : ∀ c ∈ t, c ≠ '>') : splitOnGt t = [t] := by
  induction t with
  | nil => rfl
  | cons c cs ih =>
    have hc : c ≠ '>' := h c (List.mem_cons_self _ _)
    simp only [splitOnGt, hc, if_false]
    rw [ih (fun d hd => h d (List.mem_cons_of_mem _ hd))]

theorem cpp2python_id (table : List SubstRule) (t : Chars)
    (hsub : substPass table t = t) (hgt : ∀ c ∈ t, c ≠ '>') :
    DoxygenTranslator.cpp2python table t = t := by
  unfold DoxygenTranslator.cpp2python
  rw [hsub, splitOnGt_no_gt t hgt]
  rfl

theorem countSub_head_nomem (c0 : Char) (p : Chars) :
    ∀ s : Chars, (∀ c ∈ s, c ≠ c0) → countSub (c0 :: p) s = 0 := by
  intro s
  induction s with
  | nil => intro _; simp [countSub, List.isPrefixOf]
  | cons c cs ih =>
    intro h
    have hc : ((c0 :: p).isPrefixOf (c :: cs)) = false := by
      simp [List.isPrefixOf, Ne.symm (h c (List.mem_cons_self _ _))]
    simp [countSub, hc, ih (fun d hd => h d (List.mem_cons_of_mem _ hd))]

theorem ne_of_isLower {c d : Char} (h : c.isLower = true) (hd : d.isLower = false) :
    c ≠ d := by
  intro he
  rw [he, hd] at h
  exact Bool.false_ne_true h

theorem isPySpace_of_isLower {c : Char} (h : c.isLower = true) : isPySpace c = false := by
  have h1 : c ≠ ' ' := ne_of_isLower h (by decide)
  have h2 : c ≠ '\t' := ne_of_isLower h (by decide)
  have h3 : c ≠ '\n' := ne_of_isLower h (by decide)
  have h4 : c ≠ '\r' := ne_of_isLower h (by decide)
  have h5 : c ≠ '\x0b' := ne_of_isLower h (by decide)
  have h6 : c ≠ '\x0c' := ne_of_isLower h (by decide)
  simp [isPySpace, h1, h2, h3, h4, h5, h6]

theorem bodyChar_facts {c : Char} (h : c.isLower = true ∨ c = ' ') :
    c ≠ '\n' ∧ c ≠ '@' ∧ c ≠ '\\' ∧ c ≠ '<' ∧ c ≠ '>' ∧ c ≠ 'A' := by
  rcases h with h | rfl
  · exact ⟨ne_of_isLower h (by decide), ne_of_isLower h (by decide),
      ne_of_isLower h (by decide), ne_of_isLower h (by decide),
      ne_of_isLower h (by decide), ne_of_isLower h (by decide)⟩
  · refine ⟨by decide, by decide, by decide, by decide, by decide, by decide⟩

theorem ParamSection_tagMatch (X : Chars) :
    ParamSection.tagMatch ("@param ".toList ++ X) = some (' ' :: X) := by
  show SectionKind.tagMatch ParamSection
    ('@' :: 'p' :: 'a' :: 'r' :: 'a' :: 'm' :: ' ' :: X) = some (' ' :: X)
  have hb : "param".toList = ['p', 'a', 'r', 'a', 'm'] := rfl
  simp [SectionKind.tagMatch, ParamSection, firstSyn, hb, List.isPrefixOf]

theorem labelParse_eval (l b : Chars) (hl : l ≠ [])
    (hlsp : ∀ c ∈ l, isPySpace c = false) :
    labelParse (' ' :: (l ++ ' ' :: b)) = (some l, ' ' :: b) := by
  obtain ⟨lh, lt, rfl⟩ : ∃ lh lt, l = lh :: lt := by
    cases l with
    | nil => exact absurd rfl hl
    | cons a as => exact ⟨a, as, rfl⟩
  have hspt : isPySpace ' ' = true := rfl
  have hlh : isPySpace lh = false := hlsp lh (List.mem_cons_self _ _)
  have hdw : ((' ' :: ((lh :: lt) ++ ' ' :: b)).dropWhile isPySpace) =
      (lh :: lt) ++ ' ' :: b := by
    rw [List.dropWhile_cons_of_pos hspt]
    rw [List.cons_append, List.dropWhile_cons_of_neg (by simp [hlh])]
  have htw : (((lh :: lt) ++ ' ' :: b).takeWhile (fun x => !isPySpace x)) = lh :: lt := by
    rw [List.takeWhile_append_of_pos (by intro a ha; simp [hlsp a ha])]
    rw [List.takeWhile_cons_of_neg (by simp [hspt])]
    simp
  have hdw2 : (((lh :: lt) ++ ' ' :: b).dropWhile (fun x => !isPySpace x)) = ' ' :: b := by
    rw [List.dropWhile_append_of_pos (by intro a ha; simp [hlsp a ha])]
    rw [List.dropWhile_cons_of_neg (by simp [hspt])]
  simp only [List.cons_append] at hdw htw hdw2 ⊢
  simp only [labelParse, hspt, if_true, hdw, htw, hdw2]

theorem wsThenBody_eval (b : Chars) (hbh : isPySpace (b.headD 'x') = false) :
    wsThenBody (' ' :: b) = some b := by
  have hspt : isPySpace ' ' = true := rfl
  simp only [wsThenBody, hspt, if_true]
  rw [List.dropWhile_cons_of_pos hspt]
  cases b with
  | nil => rfl
  | cons bh bt =>
    simp only [List.headD_cons] at hbh
    rw [List.dropWhile_cons_of_neg (by simp [hbh])]

/-- Evaluation of `ParamSection`'s `translate_n` on a well-formed
`@param label body` section. -/
theorem ParamSection_translate_n (l b : Chars) (title : Bool)
    (hl : l ≠ []) (hlsp : ∀ c ∈ l, isPySpace c = false)
    (hlnn : ∀ c ∈ l, c ≠ '\n')
    (hbh : isPySpace (b.headD 'x') = false) (hbnn : ∀ c ∈ b, c ≠ '\n') :
    DoxygenSection.translate_n ParamSection ("@param ".toList ++ (l ++ ' ' :: b)) title =
      (((if title then "\nArgs:\n    ".toList else "    ".toList) ++
          l ++ ": ".toList ++ b, 1), []) := by
  have hexp : ∀ c ∈ "    ".toList ++ l ++ ": ".toList ++ b, c ≠ '\n' := by
    intro c hc
    simp only [List.mem_append] at hc
    rcases hc with ((hc | hc) | hc) | hc
    · exact (by decide : ∀ c ∈ "    ".toList, c ≠ '\n') c hc
    · exact hlnn c hc
    · exact (by decide : ∀ c ∈ ": ".toList, c ≠ '\n') c hc
    · exact hbnn c hc
  have hnl := nlIndentSub_id ("    ".toList ++ "    ".toList)
    ("    ".toList ++ l ++ ": ".toList ++ b) hexp
  simp only [DoxygenSection.translate_n, ParamSection_tagMatch,
    labelParse_eval l b hl hlsp, wsThenBody_eval b hbh, Option.getD_some]
  have hargs : "Args".toList = ['A', 'r', 'g', 's'] := rfl
  have hcl : ":\n".toList = [':', '\n'] := rfl
  have hsp4 : "    ".toList = [' ', ' ', ' ', ' '] := rfl
  have hfull : "\nArgs:\n    ".toList =
      ['\n', 'A', 'r', 'g', 's', ':', '\n', ' ', ' ', ' ', ' '] := rfl
  have hcs : ": ".toList = [':', ' '] := rfl
  cases title with
  | true =>
    simp only [ParamSection, if_true, Bool.false_eq_true, if_false, SectionKind.titleLine]
    rw [hnl _]
    simp only [hargs, hcl, hsp4, hfull, hcs, List.cons_append, List.nil_append,
      List.append_assoc]
  | false =>
    simp only [ParamSection, if_true, Bool.false_eq_true, if_false, SectionKind.titleLine]
    rw [hnl _]

theorem splitGo_no_nl_total (names : List String) (xs : Chars)
    (hxs : ∀ c ∈ xs, c ≠ '\n') (f : Nat) (acc : Chars) :
    splitGo names (xs.length + f) acc xs = [acc ++ xs] := by
  have h := splitGo_append_no_nl names xs hxs f acc []
  rw [List.append_nil] at h
  rw [h, splitGo_nil]

/-- A comment made of two newline-free halves, the second starting with a
recognized tag, splits into exactly those two sections. -/
theorem splitSections_two (names : List String) (xs ys : Chars)
    (hxs : ∀ c ∈ xs, c ≠ '\n') (hys : ∀ c ∈ ys, c ≠ '\n')
    (htag : tagStart names ys = true) :
    splitSections names (xs ++ '\n' :: ys) = [xs, ys] := by
  unfold splitSections
  have hlen : (xs ++ '\n' :: ys).length + 1 = xs.length + (ys.length + 2) := by
    simp [List.length_append]
    omega
  rw [hlen]
  rw [splitGo_append_no_nl names xs hxs (ys.length + 2) [] ('\n' :: ys)]
  have h2 : ys.length + 2 = (ys.length + 1) + 1 := by omega
  rw [h2]
  have htw : ys.takeWhile (· == '\n') = [] := by
    cases ys with
    | nil => rfl
    | cons y ys' =>
      rw [List.takeWhile_cons_of_neg]
      simp [hys y (List.mem_cons_self _ _)]
  simp only [List.nil_append, splitGo, delimMatch, htw, htag, if_true]
  rw [splitGo_no_nl_total names ys hys 1 []]
  simp

theorem tagStart_param (X : Chars) :
    tagStart (allTagNames (sectionTypes {})) ("@param ".toList ++ X) = true := by
  show tagStart (allTagNames (sectionTypes {}))
    ('@' :: ('p' :: 'a' :: 'r' :: 'a' :: 'm' :: ' ' :: X)) = true
  simp only [tagStart, Bool.and_eq_true, Bool.or_eq_true, beq_iff_eq]
  refine ⟨Or.inl trivial, ?_⟩
  rw [List.any_eq_true]
  refine ⟨"param", by decide, ?_⟩
  have hb : "param".toList = ['p', 'a', 'r', 'a', 'm'] := rfl
  simp [hb, List.isPrefixOf]

/-- `ParamSection` is first in `section_types`, so a section it matches
short-circuits the kind loop. -/
theorem matchKinds_sectionTypes_param (prev : Option Nat) (text t : Chars)
    (h : DoxygenSection.translate_n ParamSection text (some 0 != prev) = ((t, 1), [])) :
    matchKinds (sectionTypes {}).enum prev text = (t, some 0, []) := by
  have he : (sectionTypes ({} : TransConfig)).enum =
      (0, ParamSection) :: List.enumFrom 1
        [returnSection {}, briefSection, tparamSection {}, retvalSection, exceptionSection,
         overloadSection, remarkSection, seeSection, authorSection, copyrightSection,
         dateSection, detailsSection, extendsSection, ingroupSection] := rfl
  rw [he]
  simp [matchKinds, h]

theorem translateStep_eval (acc : Chars) (prev : Option Nat) (ws : List Chars)
    (sec t : Chars)
    (hmk : matchKinds (sectionTypes {}).enum prev sec = (t, some 0, []))
    (hvis : applyVisuals t = (t, []))
    (hws : wsQmark t = false)
    (hcpp : DoxygenTranslator.cpp2python defaultTable t = t) :
    translateStep {} defaultTable (acc, prev, ws) sec =
      (acc ++ t ++ ['\n'], some 0, ws) := by
  simp [translateStep, hmk, hvis, hws, hcpp]

theorem goodLabel_facts (l : Chars) (h : goodLabel l = true) :
    l ≠ [] ∧ ∀ c ∈ l, c.isLower = true := by
  simp only [goodLabel, Bool.and_eq_true, Bool.not_eq_true', List.isEmpty_eq_false_iff_exists_mem,
    List.all_eq_true] at h
  obtain ⟨⟨x, hx⟩, h2⟩ := h
  exact ⟨fun he => by subst he; exact absurd hx (List.not_mem_nil x),
    fun c hc => by simpa using h2 c hc⟩

theorem goodBody_facts (b : Chars) (h : goodBody b = true) :
    isPySpace (b.headD 'x') = false ∧ ∀ c ∈ b, c.isLower = true ∨ c = ' ' := by
  cases b with
  | nil => simp [goodBody] at h
  | cons bh bt =>
    simp only [goodBody, Bool.and_eq_true, List.all_eq_true] at h
    refine ⟨by simp [isPySpace_of_isLower h.1], ?_⟩
    intro c hc
    have := h.2 c hc
    simpa using this

theorem findAlt_true (cs : Chars) :
    findAlt [toAlt "true"] cs =
      if ['t', 'r', 'u', 'e'].isPrefixOf cs = true then some 4 else none := by
  have h : toAlt "true" = ⟨['t', 'r', 'u', 'e'], false⟩ := rfl
  by_cases hp : (['t', 'r', 'u', 'e'].isPrefixOf cs) = true
  · simp [findAlt, litAltMatchLen, h, hp]
  · simp [findAlt, litAltMatchLen, h, hp]

theorem goTrue_chase_e (f : Nat) (cs : Chars)
    (h : ['e'].isPrefixOf (subLitsGo [toAlt "true"] "True".toList f cs) = true) :
    ['e'].isPrefixOf cs = true := by
  cases f with
  | zero => simpa [subLitsGo] using h
  | succ f =>
    cases cs with
    | nil => simp [subLitsGo] at h
    | cons c cs' =>
      rw [subLitsGo, findAlt_true] at h
      by_cases hp : (['t', 'r', 'u', 'e'].isPrefixOf (c :: cs')) = true
      · rw [if_pos hp] at h
        simp [List.isPrefixOf] at h
      · rw [if_neg hp] at h
        simp only [List.isPrefixOf, Bool.and_true, beq_iff_eq] at h ⊢
        exact h

theorem goTrue_chase_ue (f : Nat) (cs : Chars)
    (h : ['u', 'e'].isPrefixOf (subLitsGo [toAlt "true"] "True".toList f cs) = true) :
    ['u', 'e'].isPrefixOf cs = true := by
  cases f with
  | zero => simpa [subLitsGo] using h
  | succ f =>
    cases cs with
    | nil => simp [subLitsGo] at h
    | cons c cs' =>
      rw [subLitsGo, findAlt_true] at h
      by_cases hp : (['t', 'r', 'u', 'e'].isPrefixOf (c :: cs')) = true
      · rw [if_pos hp] at h
        simp [List.isPrefixOf] at h
      · rw [if_neg hp] at h
        simp only [List.isPrefixOf, Bool.and_eq_true, beq_iff_eq] at h ⊢
        exact ⟨h.1, goTrue_chase_e f cs' h.2⟩

theorem goTrue_chase_rue (f : Nat) (cs : Chars)
    (h : ['r', 'u', 'e'].isPrefixOf (subLitsGo [toAlt "true"] "True".toList f cs) = true) :
    ['r', 'u', 'e'].isPrefixOf cs = true := by
  cases f with
  | zero => simpa [subLitsGo] using h
  | succ f =>
    cases cs with
    | nil => simp [subLitsGo] at h
    | cons c cs' =>
      rw [subLitsGo, findAlt_true] at h
      by_cases hp : (['t', 'r', 'u', 'e'].isPrefixOf (c :: cs')) = true
      · rw [if_pos hp] at h
        simp [List.isPrefixOf] at h
      · rw [if_neg hp] at h
        simp only [List.isPrefixOf, Bool.and_eq_true, beq_iff_eq] at h ⊢
        exact ⟨h.1, goTrue_chase_ue f cs' h.2⟩

/-- After the `"true" → "True"` substitution pass, no occurrence of
`true` remains anywhere in the output: every occurrence, word-bounded or
not, was replaced. -/
theorem subLitsGo_true_no_survivor (f : Nat) :
    ∀ cs : Chars, cs.length ≤ f →
      hasSub ['t', 'r', 'u', 'e'] (subLitsGo [toAlt "true"] "True".toList f cs) = false := by
  induction f with
  | zero =>
    intro cs h
    have hnil : cs = [] := List.eq_nil_of_length_eq_zero (Nat.le_zero.mp h)
    subst hnil
    decide
  | succ f ih =>
    intro cs h
    cases cs with
    | nil => simp [subLitsGo, hasSub, List.isPrefixOf]
    | cons c cs' =>
      rw [subLitsGo, findAlt_true]
      by_cases hp : (['t', 'r', 'u', 'e'].isPrefixOf (c :: cs')) = true
      · rw [if_pos hp]
        have hrec : hasSub ['t', 'r', 'u', 'e']
            (subLitsGo [toAlt "true"] ['T', 'r', 'u', 'e'] f (cs'.drop 3)) = false :=
          ih (cs'.drop 3) (by simp only [List.length_drop]; simp at h; omega)
        show hasSub _ (['T', 'r', 'u', 'e'] ++ _) = false
        simp [hasSub, List.isPrefixOf, hrec]
      · rw [if_neg hp]
        have hrec := ih cs' (by simp at h; omega)
        show hasSub _ (c :: _) = false
        rw [hasSub, hrec, Bool.or_false]
        by_contra hcon
        rw [Bool.not_eq_false] at hcon
        simp only [List.isPrefixOf, Bool.and_eq_true, beq_iff_eq] at hcon
        have hr := goTrue_chase_rue f cs' hcon.2
        apply hp
        simp only [List.isPrefixOf, Bool.and_eq_true, beq_iff_eq]
        exact ⟨hcon.1, hr⟩

/-! # Claims -/

/-- Claim C1: for the input
`"@brief Does a thing.\n@param x the input\n@param y the output\n@return the result"`,
`translate` with the default configuration returns a text containing, in
order: the brief text `Does a thing.` with no heading, then one `Args:`
heading followed by `x: the input` and `y: the output` each indented
once, then a `Returns:` heading followed by `the result` indented once. -/
theorem claim_C1_end_to_end :
    translateDefault
        "@brief Does a thing.\n@param x the input\n@param y the output\n@return the result" =
      "\nDoes a thing.\n\nArgs:\n    x: the input\n    y: the output\n\nReturns:\n    the result\n" ∧
    "\nDoes a thing.\n".toList.isPrefixOf
      "\nDoes a thing.\n\nArgs:\n    x: the input\n    y: the output\n\nReturns:\n    the result\n".toList = true ∧
    subsInOrderStr
      ["Does a thing.", "\nArgs:\n", "    x: the input", "    y: the output",
       "\nReturns:\n", "    the result"]
      "\nDoes a thing.\n\nArgs:\n    x: the input\n    y: the output\n\nReturns:\n    the result\n" = true ∧
    countSubStr "Args:"
      "\nDoes a thing.\n\nArgs:\n    x: the input\n    y: the output\n\nReturns:\n    the result\n" = 1 ∧
    countSubStr "Returns:"
      "\nDoes a thing.\n\nArgs:\n    x: the input\n    y: the output\n\nReturns:\n    the result\n" = 1 := by
  refine ⟨by decide, by decide, by decide, by decide, by decide⟩

/-- Claim C2 counterexample: the claim says every section whose rewritten
text is whitespace-only, of any length, is dropped.  In
`"a\n\n  \n\nb"` the middle section is `"  "`; no kind matches it, so its
rewritten text is the whitespace-only, length-3 string `"\n  "`, which
fails `re.fullmatch(r'\s?', …)` and is appended: the output keeps the
`"\n  \n"` block instead of being `"\na\n\nb\n"`. -/
theorem claim_C2_counterexample :
    splitSections (allTagNames (sectionTypes {})) "a\n\n  \n\nb".toList =
      ["a".toList, "  ".toList, "b".toList] ∧
    (matchKinds (sectionTypes {}).enum none "  ".toList).1 = "\n  ".toList ∧
    "\n  ".toList.all isPySpace = true ∧
    wsQmark "\n  ".toList = false ∧
    translateDefault "a\n\n  \n\nb" = "\na\n\n  \n\nb\n" ∧
    ("\na\n\n  \n\nb\n" : String) ≠ "\na\n\nb\n" := by
  refine ⟨by decide, by decide, by decide, by decide, by decide, by decide⟩

/-- Claim C2 (amended): a section is dropped exactly when its rewritten
text fullmatches `\s?`, i.e. is empty or a single whitespace character;
whitespace-only sections of length at least two are appended (with the
trailing newline) like any other section.  Illustrated by: the empty
piece before `@brief` (rewritten `"\n"`) and the hidden `@tparam` section
(rewritten `""`) are dropped, while the whitespace section `"  "` above
is kept. -/
theorem claim_C2_amended :
    (∀ s : Chars, wsQmark s = true ↔ s = [] ∨ ∃ c, isPySpace c = true ∧ s = [c]) ∧
    translateDefault "\n\n@brief hi" = "\nhi\n" ∧
    translateDefault "@tparam T a type" = "" ∧
    translateDefault "a\n\n  \n\nb" = "\na\n\n  \n\nb\n" := by
  refine ⟨?_, by decide, by decide, by decide⟩
  intro s
  match s with
  | [] => simp [wsQmark]
  | [c] => simp [wsQmark]
  | c :: d :: t => simp [wsQmark]

/-- Claim C4: `cpp2python` rewrites `List<Dict<str,int>>` to exactly
`List[Dict[str,int]]`, and the output has as many `[` characters as `]`
characters. -/
theorem claim_C4_bracket_roundtrip :
    cpp2pythonStr "List<Dict<str,int>>" = "List[Dict[str,int]]" ∧
    (cpp2pythonStr "List<Dict<str,int>>").toList.count '[' =
      (cpp2pythonStr "List<Dict<str,int>>").toList.count ']' := by
  refine ⟨by decide, by decide⟩

/-- Claim C5: throughout the bracket-rewriting scan of `cpp2python`, the
depth counter is never negative: for every table and text, every depth
value tested (after `depth += delta_depth`) is `≥ 0`, and the branch
taken on `>` is by sign — on `"List<int> > x"` the first `>` (depth
positive) becomes `]` while the second (depth zero) stays literal.  The
scan is a total function, so unmatched closing brackets never raise. -/
theorem claim_C5_depth_nonneg :
    (∀ (table : List SubstRule) (text : String),
      (depthTraceOf table text.toList).all (fun d => decide (0 ≤ d)) = true) ∧
    cpp2pythonStr "List<int> > x" = "List[int] > x" := by
  refine ⟨?_, by decide⟩
  intro table text
  rw [List.all_eq_true]
  intro d hd
  exact decide_eq_true
    (rebracketLoop_trace_nonneg (splitOnGt (substPass table text.toList)) 0 (le_refl 0) d hd)

/-- Claim C6 counterexample: the claim quantifies over any text
containing `@ingroup foo`.  In `"hello @ingroup foo"` the tag does not
start a section, so no section kind matches: no warning is issued at all
and the raw `@ingroup` token survives in the output. -/
theorem claim_C6_counterexample :
    translateDefault "hello @ingroup foo" = "\nhello @ingroup foo\n" ∧
    defaultWarnings "hello @ingroup foo" = [] ∧
    hasSubStr "@ingroup" "\nhello @ingroup foo\n" = true := by
  refine ⟨by decide, by decide, by decide⟩

/-- Claim C6 (amended): translating a comment in which `@ingroup foo`
starts a section (such as the comment `"@ingroup foo"` itself) issues
exactly one warning, whose message names `ingroup`, and the output
renders the section under its `In Group` title with no raw `@ingroup`
token; an occurrence that does not start a section is passed through as
plain prose with no warning (see the counterexample). -/
theorem claim_C6_amended :
    translateDefault "@ingroup foo" = "\nIn Group:\n    foo\n" ∧
    defaultWarnings "@ingroup foo" =
      ["Unsupported Doxygen command detected: \\ingroup or @ingroup"] ∧
    (defaultWarnings "@ingroup foo").length = 1 ∧
    hasSubStr "ingroup" "Unsupported Doxygen command detected: \\ingroup or @ingroup" = true ∧
    hasSubStr "@ingroup" "\nIn Group:\n    foo\n" = false := by
  refine ⟨by decide, by decide, by decide, by decide, by decide⟩

/-- Claim C7: every HTML-paired-tag command the translator constructs
(`b`, `em`, `tt`, `pre`, `li`) tries the case variants
`lowercased ++ uppercased` of its tag names; all these tags are
lowercase, so the lowercased variant coincides with the tag as
configured, and an occurrence written exactly as configured is rewritten,
as is the uppercased one. -/
theorem claim_C7_html_case_variants :
    htmlVariants bHtml.synonyms = ["b", "B"] ∧
    htmlVariants emHtml.synonyms = ["em", "EM"] ∧
    htmlVariants ttHtml.synonyms = ["tt", "TT"] ∧
    htmlVariants preHtml.synonyms = ["pre", "PRE"] ∧
    htmlVariants liHtml.synonyms = ["li", "LI"] ∧
    DoxygenHtmlCommand.translate_n bHtml.synonyms bHtml.fmtPre bHtml.fmtPost
      "<b>w</b>".toList = ("**w**".toList, 1) ∧
    DoxygenHtmlCommand.translate_n bHtml.synonyms bHtml.fmtPre bHtml.fmtPost
      "<B>w</B>".toList = ("**w**".toList, 1) ∧
    DoxygenHtmlCommand.translate_n emHtml.synonyms emHtml.fmtPre emHtml.fmtPost
      "<em>w</em>".toList = ("*w*".toList, 1) ∧
    DoxygenHtmlCommand.translate_n emHtml.synonyms emHtml.fmtPre emHtml.fmtPost
      "<EM>w</EM>".toList = ("*w*".toList, 1) ∧
    DoxygenHtmlCommand.translate_n ttHtml.synonyms ttHtml.fmtPre ttHtml.fmtPost
      "<tt>w</tt>".toList = ("``w``".toList, 1) ∧
    DoxygenHtmlCommand.translate_n ttHtml.synonyms ttHtml.fmtPre ttHtml.fmtPost
      "<TT>w</TT>".toList = ("``w``".toList, 1) ∧
    DoxygenHtmlCommand.translate_n preHtml.synonyms preHtml.fmtPre preHtml.fmtPost
      "<pre>w</pre>".toList = ("\n```w\n```\n".toList, 1) ∧
    DoxygenHtmlCommand.translate_n preHtml.synonyms preHtml.fmtPre preHtml.fmtPost
      "<PRE>w</PRE>".toList = ("\n```w\n```\n".toList, 1) ∧
    DoxygenHtmlCommand.translate_n liHtml.synonyms liHtml.fmtPre liHtml.fmtPost
      "<li>w</li>".toList = ("\n- w".toList, 1) ∧
    DoxygenHtmlCommand.translate_n liHtml.synonyms liHtml.fmtPre liHtml.fmtPost
      "<LI>w</LI>".toList = ("\n- w".toList, 1) := by
  refine ⟨by decide, by decide, by decide, by decide, by decide, by decide, by decide,
    by decide, by decide, by decide, by decide, by decide, by decide, by decide, by decide⟩

/-- Claim C8 (refuted by the code): `type_substitutions` is a class-level
dict, and `__init__` stores the scope-operator rule into it through
`self`.  A translator `A` built with `translate_scope_operator=False` on
the pristine table translates `"ns::fn"` to `"\nns::fn\n"`; constructing
a second translator with the flag on mutates the shared class table, and
the same call on the unchanged instance `A` now yields `"\nns.fn\n"`.
So the result is not a pure function of the comment and the
configuration fixed at `A`'s construction. -/
theorem claim_C8_shared_table_mutation :
    ctorTable false type_substitutions = type_substitutions ∧
    DoxygenTranslator.translate {} type_substitutions "ns::fn" = "\nns::fn\n" ∧
    ctorTable true type_substitutions = type_substitutions ++ [scopeRule] ∧
    DoxygenTranslator.translate {} (ctorTable true type_substitutions) "ns::fn" =
      "\nns.fn\n" ∧
    ("\nns::fn\n" : String) ≠ "\nns.fn\n" := by
  refine ⟨rfl, by decide, rfl, by decide, by decide⟩

/-- Claim C10: a bare recognized section tag with no body is still a
match (count 1), not a plain paragraph: `"@return"` renders the title
line followed by the bare indent, a bare labeled tag (`"@exception"`)
renders an empty `label: body` line, and the full translation of
`"@return"` is the titled empty body. -/
theorem claim_C10_bare_tag :
    DoxygenSection.translate_n (returnSection {}) "@return".toList true =
      (("\nReturns:\n    ".toList, 1), []) ∧
    DoxygenSection.translate_n exceptionSection "@exception".toList true =
      (("\nRaises:\n    : ".toList, 1), []) ∧
    translateDefault "@return" = "\nReturns:\n    \n" := by
  refine ⟨by decide, by decide, by decide⟩

/-- Claim C3: for every input consisting of two immediately consecutive
`@param` sections — quantified here over labels of lowercase letters and
bodies of lowercase letters and spaces on which no substitution rule
fires (the claim's own example included) — the translated output contains
exactly one `Args:` heading, with both `label: body` lines indented
beneath it in the original order; the second section's title is
suppressed because its kind (position 0, `ParamSection`) equals the kind
that matched the immediately preceding section. -/
theorem claim_C3_title_suppression (l1 b1 l2 b2 : Chars)
    (hl1 : goodLabel l1 = true) (hb1 : goodBody b1 = true)
    (hl2 : goodLabel l2 = true) (hb2 : goodBody b2 = true)
    (hc1 : sectionClean ("\nArgs:\n    ".toList ++ l1 ++ ": ".toList ++ b1) = true)
    (hc2 : sectionClean ("    ".toList ++ l2 ++ ": ".toList ++ b2) = true) :
    translateAll {} defaultTable
        (("@param ".toList ++ (l1 ++ ' ' :: b1)) ++
          '\n' :: ("@param ".toList ++ (l2 ++ ' ' :: b2))) =
      (("\nArgs:\n    ".toList ++ l1 ++ ": ".toList ++ b1) ++
        ('\n' :: (("    ".toList ++ l2 ++ ": ".toList ++ b2) ++ ['\n'])), []) ∧
    countSub "Args:".toList
      (("\nArgs:\n    ".toList ++ l1 ++ ": ".toList ++ b1) ++
        ('\n' :: (("    ".toList ++ l2 ++ ": ".toList ++ b2) ++ ['\n']))) = 1 := by
  obtain ⟨hl1ne, hl1lo⟩ := goodLabel_facts l1 hl1
  obtain ⟨hb1h, hb1lo⟩ := goodBody_facts b1 hb1
  obtain ⟨hl2ne, hl2lo⟩ := goodLabel_facts l2 hl2
  obtain ⟨hb2h, hb2lo⟩ := goodBody_facts b2 hb2
  have hl1f : ∀ c ∈ l1, c ≠ '\n' ∧ c ≠ '@' ∧ c ≠ '\\' ∧ c ≠ '<' ∧ c ≠ '>' ∧ c ≠ 'A' :=
    fun c hc => bodyChar_facts (Or.inl (hl1lo c hc))
  have hb1f : ∀ c ∈ b1, c ≠ '\n' ∧ c ≠ '@' ∧ c ≠ '\\' ∧ c ≠ '<' ∧ c ≠ '>' ∧ c ≠ 'A' :=
    fun c hc => bodyChar_facts (hb1lo c hc)
  have hl2f : ∀ c ∈ l2, c ≠ '\n' ∧ c ≠ '@' ∧ c ≠ '\\' ∧ c ≠ '<' ∧ c ≠ '>' ∧ c ≠ 'A' :=
    fun c hc => bodyChar_facts (Or.inl (hl2lo c hc))
  have hb2f : ∀ c ∈ b2, c ≠ '\n' ∧ c ≠ '@' ∧ c ≠ '\\' ∧ c ≠ '<' ∧ c ≠ '>' ∧ c ≠ 'A' :=
    fun c hc => bodyChar_facts (hb2lo c hc)
  have hl1sp : ∀ c ∈ l1, isPySpace c = false := fun c hc => isPySpace_of_isLower (hl1lo c hc)
  have hl2sp : ∀ c ∈ l2, isPySpace c = false := fun c hc => isPySpace_of_isLower (hl2lo c hc)
  have hs1nn : ∀ c ∈ "@param ".toList ++ (l1 ++ ' ' :: b1), c ≠ '\n' := by
    intro c hc
    rcases List.mem_append.mp hc with hc | hc
    · exact (by decide : ∀ c ∈ "@param ".toList, c ≠ '\n') c hc
    rcases List.mem_append.mp hc with hc | hc
    · exact (hl1f c hc).1
    rcases List.mem_cons.mp hc with rfl | hc
    · decide
    · exact (hb1f c hc).1
  have hs2nn : ∀ c ∈ "@param ".toList ++ (l2 ++ ' ' :: b2), c ≠ '\n' := by
    intro c hc
    rcases List.mem_append.mp hc with hc | hc
    · exact (by decide : ∀ c ∈ "@param ".toList, c ≠ '\n') c hc
    rcases List.mem_append.mp hc with hc | hc
    · exact (hl2f c hc).1
    rcases List.mem_cons.mp hc with rfl | hc
    · decide
    · exact (hb2f c hc).1
  have hsplit := splitSections_two (allTagNames (sectionTypes {}))
      ("@param ".toList ++ (l1 ++ ' ' :: b1)) ("@param ".toList ++ (l2 ++ ' ' :: b2))
      hs1nn hs2nn (tagStart_param (l2 ++ ' ' :: b2))
  have ht1 := ParamSection_translate_n l1 b1 true hl1ne hl1sp (fun c hc => (hl1f c hc).1)
      hb1h (fun c hc => (hb1f c hc).1)
  rw [if_pos rfl] at ht1
  have ht2 := ParamSection_translate_n l2 b2 false hl2ne hl2sp (fun c hc => (hl2f c hc).1)
      hb2h (fun c hc => (hb2f c hc).1)
  rw [if_neg (by simp)] at ht2
  have hmk1 : matchKinds (sectionTypes {}).enum none
      ("@param ".toList ++ (l1 ++ ' ' :: b1)) =
      ("\nArgs:\n    ".toList ++ l1 ++ ": ".toList ++ b1, some 0, []) :=
    matchKinds_sectionTypes_param none _ _ ht1
  have hmk2 : matchKinds (sectionTypes {}).enum (some 0)
      ("@param ".toList ++ (l2 ++ ' ' :: b2)) =
      ("    ".toList ++ l2 ++ ": ".toList ++ b2, some 0, []) :=
    matchKinds_sectionTypes_param (some 0) _ _ ht2
  have hT1c : ∀ c ∈ "\nArgs:\n    ".toList ++ l1 ++ ": ".toList ++ b1,
      c ≠ '@' ∧ c ≠ '\\' ∧ c ≠ '<' ∧ c ≠ '>' := by
    intro c hc
    rcases List.mem_append.mp hc with hc | hc
    · rcases List.mem_append.mp hc with hc | hc
      · rcases List.mem_append.mp hc with hc | hc
        · exact (by decide :
            ∀ c ∈ "\nArgs:\n    ".toList, c ≠ '@' ∧ c ≠ '\\' ∧ c ≠ '<' ∧ c ≠ '>') c hc
        · exact ⟨(hl1f c hc).2.1, (hl1f c hc).2.2.1, (hl1f c hc).2.2.2.1,
            (hl1f c hc).2.2.2.2.1⟩
      · exact (by decide : ∀ c ∈ ": ".toList, c ≠ '@' ∧ c ≠ '\\' ∧ c ≠ '<' ∧ c ≠ '>') c hc
    · exact ⟨(hb1f c hc).2.1, (hb1f c hc).2.2.1, (hb1f c hc).2.2.2.1,
        (hb1f c hc).2.2.2.2.1⟩
  have hT2c : ∀ c ∈ "    ".toList ++ l2 ++ ": ".toList ++ b2,
      c ≠ '@' ∧ c ≠ '\\' ∧ c ≠ '<' ∧ c ≠ '>' := by
    intro c hc
    rcases List.mem_append.mp hc with hc | hc
    · rcases List.mem_append.mp hc with hc | hc
      · rcases List.mem_append.mp hc with hc | hc
        · exact (by decide :
            ∀ c ∈ "    ".toList, c ≠ '@' ∧ c ≠ '\\' ∧ c ≠ '<' ∧ c ≠ '>') c hc
        · exact ⟨(hl2f c hc).2.1, (hl2f c hc).2.2.1, (hl2f c hc).2.2.2.1,
            (hl2f c hc).2.2.2.2.1⟩
      · exact (by decide : ∀ c ∈ ": ".toList, c ≠ '@' ∧ c ≠ '\\' ∧ c ≠ '<' ∧ c ≠ '>') c hc
    · exact ⟨(hb2f c hc).2.1, (hb2f c hc).2.2.1, (hb2f c hc).2.2.2.1,
        (hb2f c hc).2.2.2.2.1⟩
  have hvis1 := applyVisuals_id ("\nArgs:\n    ".toList ++ l1 ++ ": ".toList ++ b1)
    (fun c hc => ⟨(hT1c c hc).1, (hT1c c hc).2.1, (hT1c c hc).2.2.1⟩)
  have hvis2 := applyVisuals_id ("    ".toList ++ l2 ++ ": ".toList ++ b2)
    (fun c hc => ⟨(hT2c c hc).1, (hT2c c hc).2.1, (hT2c c hc).2.2.1⟩)
  have hws1 : wsQmark ("\nArgs:\n    ".toList ++ l1 ++ ": ".toList ++ b1) = false := by
    rw [show "\nArgs:\n    ".toList = '\n' :: 'A' :: "rgs:\n    ".toList from rfl]
    simp only [List.cons_append, List.append_assoc]
    rfl
  have hws2 : wsQmark ("    ".toList ++ l2 ++ ": ".toList ++ b2) = false := by
    rw [show "    ".toList = ' ' :: ' ' :: "  ".toList from rfl]
    simp only [List.cons_append, List.append_assoc]
    rfl
  have hcpp1 := cpp2python_id defaultTable
    ("\nArgs:\n    ".toList ++ l1 ++ ": ".toList ++ b1)
    (substPass_id defaultTable _ hc1) (fun c hc => (hT1c c hc).2.2.2)
  have hcpp2 := cpp2python_id defaultTable
    ("    ".toList ++ l2 ++ ": ".toList ++ b2)
    (substPass_id defaultTable _ hc2) (fun c hc => (hT2c c hc).2.2.2)
  have hstep1 := translateStep_eval [] none [] _ _ hmk1 hvis1 hws1 hcpp1
  have hstep2 := translateStep_eval
      ([] ++ ("\nArgs:\n    ".toList ++ l1 ++ ": ".toList ++ b1) ++ ['\n']) (some 0) []
      _ _ hmk2 hvis2 hws2 hcpp2
  constructor
  · unfold translateAll
    rw [hsplit]
    simp only [List.foldl_cons, List.foldl_nil, hstep1, hstep2]
    simp [List.append_assoc]
  · have key : ∀ R : Chars, (∀ c ∈ R, c ≠ 'A') →
        countSub ['A', 'r', 'g', 's', ':']
          ('\n' :: 'A' :: 'r' :: 'g' :: 's' :: ':' :: '\n' :: R) = 1 := by
      intro R hR
      have h0 := countSub_head_nomem 'A' ['r', 'g', 's', ':'] R hR
      simp [countSub, List.isPrefixOf, h0]
    have hRfact : ∀ c ∈ ("    ".toList ++ (l1 ++ (": ".toList ++ (b1 ++
        ('\n' :: (("    ".toList ++ l2 ++ ": ".toList ++ b2) ++ ['\n'])))))), c ≠ 'A' := by
      intro c hc
      rcases List.mem_append.mp hc with hc | hc
      · exact (by decide : ∀ c ∈ "    ".toList, c ≠ 'A') c hc
      rcases List.mem_append.mp hc with hc | hc
      · exact (hl1f c hc).2.2.2.2.2
      rcases List.mem_append.mp hc with hc | hc
      · exact (by decide : ∀ c ∈ ": ".toList, c ≠ 'A') c hc
      rcases List.mem_append.mp hc with hc | hc
      · exact (hb1f c hc).2.2.2.2.2
      rcases List.mem_cons.mp hc with rfl | hc
      · decide
      rcases List.mem_append.mp hc with hc | hc
      · rcases List.mem_append.mp hc with hc | hc
        · rcases List.mem_append.mp hc with hc | hc
          · rcases List.mem_append.mp hc with hc | hc
            · exact (by decide : ∀ c ∈ "    ".toList, c ≠ 'A') c hc
            · exact (hl2f c hc).2.2.2.2.2
          · exact (by decide : ∀ c ∈ ": ".toList, c ≠ 'A') c hc
        · exact (hb2f c hc).2.2.2.2.2
      · rcases List.mem_cons.mp hc with rfl | hc
        · decide
        · exact absurd hc (List.not_mem_nil c)
    have hX : ("\nArgs:\n    ".toList ++ l1 ++ ": ".toList ++ b1) ++
        ('\n' :: (("    ".toList ++ l2 ++ ": ".toList ++ b2) ++ ['\n'])) =
        '\n' :: 'A' :: 'r' :: 'g' :: 's' :: ':' :: '\n' ::
          ("    ".toList ++ (l1 ++ (": ".toList ++ (b1 ++
            ('\n' :: (("    ".toList ++ l2 ++ ": ".toList ++ b2) ++ ['\n'])))))) := by
      rw [show "\nArgs:\n    ".toList =
        '\n' :: 'A' :: 'r' :: 'g' :: 's' :: ':' :: '\n' :: "    ".toList from rfl]
      simp [List.cons_append, List.append_assoc]
    rw [show "Args:".toList = ['A', 'r', 'g', 's', ':'] from rfl, hX]
    exact key _ hRfact

/-- Witness for claim C3, at the claim's own example
`"@param x the input\n@param y the output"`: all hypotheses hold there
and the conclusion instantiates to the concrete translation with exactly
one `Args:` heading. -/
theorem claim_C3_witness :
    goodLabel "x".toList = true ∧ goodBody "the input".toList = true ∧
    goodLabel "y".toList = true ∧ goodBody "the output".toList = true ∧
    sectionClean ("\nArgs:\n    ".toList ++ "x".toList ++ ": ".toList ++
      "the input".toList) = true ∧
    sectionClean ("    ".toList ++ "y".toList ++ ": ".toList ++
      "the output".toList) = true ∧
    (translateAll {} defaultTable
        (("@param ".toList ++ ("x".toList ++ ' ' :: "the input".toList)) ++
          '\n' :: ("@param ".toList ++ ("y".toList ++ ' ' :: "the output".toList))) =
      (("\nArgs:\n    ".toList ++ "x".toList ++ ": ".toList ++ "the input".toList) ++
        ('\n' :: (("    ".toList ++ "y".toList ++ ": ".toList ++
          "the output".toList) ++ ['\n'])), []) ∧
     countSub "Args:".toList
      (("\nArgs:\n    ".toList ++ "x".toList ++ ": ".toList ++ "the input".toList) ++
        ('\n' :: (("    ".toList ++ "y".toList ++ ": ".toList ++
          "the output".toList) ++ ['\n']))) = 1) :=
  ⟨by decide, by decide, by decide, by decide, by decide, by decide,
   claim_C3_title_suppression "x".toList "the input".toList "y".toList "the output".toList
     (by decide) (by decide) (by decide) (by decide) (by decide) (by decide)⟩

/-- Claim C9: the type/exception substitutions are applied without
word-boundary anchoring: every occurrence of a pattern as a substring is
replaced, even inside a longer word — `untrue` becomes `unTrue` and the
`double` inside `adoubled` becomes `float`; and after the
`"true" → "True"` rule runs, no `true` substring survives anywhere, for
any input. -/
theorem claim_C9_unanchored_substitution :
    cpp2pythonStr "untrue" = "unTrue" ∧
    cpp2pythonStr "adoubled" = "afloatd" ∧
    (∀ s : Chars,
      hasSub "true".toList (applySubstRule (.lits [toAlt "true"] "True".toList) s) = false) := by
  refine ⟨by decide, by decide, ?_⟩
  intro s
  exact subLitsGo_true_no_survivor s.length s (le_refl _)

end DoxyTrans
